import Mathlib

/-!
Shallow embedding of `src/main.py`, an in-memory contact directory with
validated fields (name, phone, birthday) and a birthday-reminder query,
driven by a line-oriented command interpreter.

Modelling conventions:
* Python strings are Lean `String`s; character-level computation is done on
  `String.data` (a `List Char`).
* Python exceptions are `Except String` values, the payload being `str(e)`.
* Python object identity matters for `list.remove` on `Phone` objects
  (class `Field` defines no `__eq__`, so `==` falls back to identity); a
  `Phone` therefore carries an allocation id `oid` modelling `id(obj)`.
  Handlers thread a `fresh` counter: every object they allocate gets a new
  id, so a freshly built `Phone` is never identical to a stored one.
* `datetime.today()` is passed in explicitly as a `today : Date` argument.
-/

namespace AssistantBot

/-- Gregorian leap-year test, as in `calendar.isleap` / `datetime`. -/
def isLeap (y : Nat) : Bool := (y % 4 == 0 && y % 100 != 0) || (y % 400 == 0)

/-- Length of month `m` (1-12) in a year whose leap flag is `leap`,
mirroring `datetime._days_in_month`. -/
def days_in_month (leap : Bool) (m : Nat) : Nat :=
  if m = 2 then (if leap then 29 else 28)
  else if m = 4 ∨ m = 6 ∨ m = 9 ∨ m = 11 then 30
  else 31

/-- Number of days in the year strictly before month `m`, mirroring
`datetime._days_before_month`. -/
def days_before_month (leap : Bool) (m : Nat) : Nat :=
  ((List.range (m - 1)).map (fun k => days_in_month leap (k + 1))).sum

/-- Calendar date, as `datetime.date` (year, month, day). -/
structure Date where
  year : Nat
  month : Nat
  day : Nat
deriving DecidableEq

/-- Validity of a date under `datetime.date`'s constructor checks
(`MINYEAR = 1`, `MAXYEAR = 9999`, month 1-12, day 1-`days_in_month`). -/
def Date.valid (d : Date) : Bool :=
  decide (1 ≤ d.year ∧ d.year ≤ 9999 ∧ 1 ≤ d.month ∧ d.month ≤ 12 ∧
          1 ≤ d.day ∧ d.day ≤ days_in_month (isLeap d.year) d.month)

/-- Python `date.replace(year=y)`: rebuilds the date with the new year and
re-runs the constructor checks, raising `ValueError` on failure (year range
first, then day-of-month, as in `datetime._check_date_fields`). -/
def Date.replaceYear (d : Date) (y : Nat) : Except String Date :=
  if y < 1 ∨ 9999 < y then .error ("year " ++ toString y ++ " is out of range")
  else if days_in_month (isLeap y) d.month < d.day then
    .error "day is out of range for month"
  else .ok ⟨y, d.month, d.day⟩

/-- Python `date.__lt__`: chronological comparison, which on valid dates is
lexicographic on (year, month, day). -/
def Date.lt (a b : Date) : Bool :=
  decide (a.year < b.year ∨ (a.year = b.year ∧ (a.month < b.month ∨
          (a.month = b.month ∧ a.day < b.day))))

/-- Count of leap years in `1..y`, the correction term of
`datetime._days_before_year`. -/
def leapsBefore (y : Nat) : Nat := y / 4 - y / 100 + y / 400

/-- Python `date.toordinal()`: day number in the proleptic Gregorian
calendar, with day 1 = January 1 of year 1. -/
def Date.toordinal (d : Date) : Nat :=
  365 * (d.year - 1) + leapsBefore (d.year - 1) +
    days_before_month (isLeap d.year) d.month + d.day

/-- Python `(a - b).days` for two dates: difference of ordinals. -/
def Date.sub (a b : Date) : Int := (a.toordinal : Int) - (b.toordinal : Int)

/-- Python `str.isalpha()`: non-empty and every character alphabetic. -/
def isalphaStr (s : String) : Bool := !s.data.isEmpty && s.data.all Char.isAlpha

/-- Python `str.isdigit()`: non-empty and every character a digit. -/
def isdigitStr (s : String) : Bool := !s.data.isEmpty && s.data.all Char.isDigit

/-- Field variant `Name` (src/main.py lines 25-29): wraps the raw string. -/
structure Name where
  value : String
deriving DecidableEq

/-- Constructor `Name.__init__`: raises `ValueError` unless `value.isalpha()`. -/
def mkName (value : String) : Except String Name :=
  if isalphaStr value then .ok ⟨value⟩
  else .error "Name must contain only alphabetic characters."

/-- Inherited `Field.value` setter (src/main.py lines 20-22): assigns the
raw value with no validation. -/
def Name.setValue (_n : Name) (v : String) : Name := ⟨v⟩

/-- Field variant `Phone` (src/main.py lines 32-36). `oid` models Python
object identity (`id`); `Field` defines no `__eq__`, so two `Phone`s compare
equal exactly when they are the same object. -/
structure Phone where
  value : String
  oid : Nat
deriving DecidableEq

/-- Constructor `Phone.__init__`: raises unless the value is all digits and
exactly 10 characters long; `oid` is the identity of the new object. -/
def mkPhone (value : String) (oid : Nat) : Except String Phone :=
  if !isdigitStr value ∨ value.length ≠ 10 then
    .error "Phone number must be 10 digits long."
  else .ok ⟨value, oid⟩

/-- Inherited `Field.value` setter on `Phone`: no validation. -/
def Phone.setValue (p : Phone) (v : String) : Phone := ⟨v, p.oid⟩

/-- Numeric value of a digit string, most significant digit first. -/
def digitsVal (l : List Char) : Nat :=
  l.foldl (fun n c => 10 * n + (c.toNat - 48)) 0

/-- Token language of the `%d` directive of `_strptime` (regex
`3[01]|[12]\d|0[1-9]|[1-9]`): one or two digits whose value is 1-31. -/
def dayTok (l : List Char) : Bool :=
  l.all Char.isDigit && 1 ≤ l.length && l.length ≤ 2 &&
    1 ≤ digitsVal l && digitsVal l ≤ 31

/-- Token language of the `%m` directive (regex `1[0-2]|0[1-9]|[1-9]`):
one or two digits whose value is 1-12. -/
def monthTok (l : List Char) : Bool :=
  l.all Char.isDigit && 1 ≤ l.length && l.length ≤ 2 &&
    1 ≤ digitsVal l && digitsVal l ≤ 12

/-- Token language of the `%Y` directive (regex `\d\d\d\d`): exactly four
digits. -/
def yearTok (l : List Char) : Bool := l.all Char.isDigit && l.length = 4

/-- Splitting a character list at every `'.'`, as Python `str.split('.')`:
always returns at least one (possibly empty) part. -/
def splitDots : List Char → List (List Char)
  | [] => [[]]
  | c :: rest =>
    if c = '.' then [] :: splitDots rest
    else
      match splitDots rest with
      | [] => [[c]]
      | p :: ps => (c :: p) :: ps

/-- Inverse of `splitDots`: re-joins parts with `'.'` separators. -/
def joinDots : List (List Char) → List Char
  | [] => []
  | [x] => x
  | x :: r => x ++ '.' :: joinDots r

/-- Python `datetime.strptime(value, "%d.%m.%Y").date()`. The format has
exactly two literal dots and digit-only directives, so a string matches the
compiled regex iff it splits at dots into a `%d` token, a `%m` token and a
`%Y` token; `strptime` then builds `datetime(year, month, day)`, which
re-validates (`MINYEAR = 1`, day within the month). `none` models the
`ValueError` raised on either failure. -/
def strptimeDMY (s : String) : Option Date :=
  match splitDots s.data with
  | [d, m, y] =>
    if dayTok d && monthTok m && yearTok y then
      let date : Date := ⟨digitsVal y, digitsVal m, digitsVal d⟩
      if 1 ≤ date.year ∧ date.day ≤ days_in_month (isLeap date.year) date.month
      then some date else none
    else none
  | _ => none

/-- Field variant `Birthday` (src/main.py lines 39-49): stores the raw text
(`_value`) and the decoded date (`_date`). -/
structure Birthday where
  value : String
  date : Date
deriving DecidableEq

/-- Constructor `Birthday.__init__`: parses with `strptime` and converts any
parse failure to `ValueError("Invalid date format. Use DD.MM.YYYY")`. -/
def mkBirthday (value : String) : Except String Birthday :=
  match strptimeDMY value with
  | some d => .ok ⟨value, d⟩
  | none => .error "Invalid date format. Use DD.MM.YYYY"

/-- Acceptance predicate for `Birthday`, stated independently of the parser:
the text decomposes at two literal dots into a 1-2 digit day (value 1-31),
a 1-2 digit month (value 1-12) and an exactly 4-digit year, and the three
numbers name a real calendar date (year at least 1, day within the month). -/
def birthdayAccepted (s : String) : Prop :=
  ∃ a b c : List Char,
    s.data = a ++ ('.' :: (b ++ ('.' :: c))) ∧
    (∀ ch ∈ a, ch.isDigit = true) ∧ 1 ≤ a.length ∧ a.length ≤ 2 ∧
      1 ≤ digitsVal a ∧ digitsVal a ≤ 31 ∧
    (∀ ch ∈ b, ch.isDigit = true) ∧ 1 ≤ b.length ∧ b.length ≤ 2 ∧
      1 ≤ digitsVal b ∧ digitsVal b ≤ 12 ∧
    (∀ ch ∈ c, ch.isDigit = true) ∧ c.length = 4 ∧
    1 ≤ digitsVal c ∧
    digitsVal a ≤ days_in_month (isLeap (digitsVal c)) (digitsVal b)

/-- Contact record (src/main.py lines 52-81): a validated name, an ordered
list of phones, an optional birthday. -/
structure Record where
  name : Name
  phones : List Phone
  birthday : Option Birthday
deriving DecidableEq

/-- Method `Record.add_phone`: appends to the phone list (the `isinstance`
check is vacuous in the typed embedding). -/
def Record.add_phone (r : Record) (p : Phone) : Record :=
  { r with phones := r.phones ++ [p] }

/-- Python `list.remove(x)` on a list of `Phone` objects: removes the first
element `==` to `x`; with no `__eq__` on `Field` that is identity (`oid`)
comparison. Raises `ValueError` when no element matches. -/
def listRemovePhone : List Phone → Phone → Except String (List Phone)
  | [], _ => .error "list.remove(x): x not in list"
  | q :: rest, p =>
    if q.oid = p.oid then .ok rest
    else
      match listRemovePhone rest p with
      | .error e => .error e
      | .ok rest2 => .ok (q :: rest2)

/-- Method `Record.remove_phone` (src/main.py lines 63-64):
`self.phones.remove(phone)`. -/
def Record.remove_phone (r : Record) (p : Phone) : Except String Record :=
  match listRemovePhone r.phones p with
  | .error e => .error e
  | .ok ps => .ok { r with phones := ps }

/-- Method `Record.add_birthday`: replaces the stored birthday (the
`isinstance` check is vacuous in the typed embedding). -/
def Record.add_birthday (r : Record) (b : Birthday) : Record :=
  { r with birthday := some b }

/-- Method `Record.days_to_birthday` (src/main.py lines 71-81), with
`datetime.today().date()` passed in as `today`. Returns `.ok none` when no
birthday is set; propagates the `ValueError` of `date.replace` (Feb 29 in a
non-leap year) as `.error`. -/
def Record.days_to_birthday (r : Record) (today : Date) :
    Except String (Option Int) :=
  match r.birthday with
  | none => .ok none
  | some b =>
    match b.date.replaceYear today.year with
    | .error e => .error e
    | .ok nb =>
      match (if nb.lt today then b.date.replaceYear (today.year + 1)
             else .ok nb) with
      | .error e => .error e
      | .ok nb2 => .ok (some (nb2.sub today))

/-- The address book (src/main.py lines 84-110): a Python `dict` from name
text to records, modelled as an insertion-ordered association list with
unique keys (Python dicts preserve insertion order; assigning to an existing
key replaces the value in place). -/
structure AddressBook where
  records : List (String × Record)
deriving DecidableEq

/-- Python `dict.__setitem__`: replaces in place when the key exists,
otherwise appends. -/
def insertOrReplace : List (String × Record) → String → Record →
    List (String × Record)
  | [], k, r => [(k, r)]
  | (k', r') :: rest, k, r =>
    if k' = k then (k, r) :: rest
    else (k', r') :: insertOrReplace rest k r

/-- Method `AddressBook.add_record` (src/main.py lines 88-91):
`self.records[record.name.value] = record`. -/
def AddressBook.add_record (book : AddressBook) (r : Record) : AddressBook :=
  ⟨insertOrReplace book.records r.name.value r⟩

/-- Method `AddressBook.find`: `self.records.get(name)`. -/
def AddressBook.find (book : AddressBook) (name : String) : Option Record :=
  match book.records.find? (fun e => e.1 == name) with
  | some e => some e.2
  | none => none

/-- Loop body of `AddressBook.get_upcoming_birthdays` over the remaining
records, in iteration (= insertion) order; an uncaught `ValueError` from
`date.replace` aborts the whole traversal. -/
def upcomingGo (today : Date) (days : Int) :
    List (String × Record) → Except String (List String)
  | [] => .ok []
  | e :: rest =>
    match e.2.birthday with
    | none => upcomingGo today days rest
    | some b =>
      match b.date.replaceYear today.year with
      | .error msg => .error msg
      | .ok nb =>
        match (if nb.lt today then b.date.replaceYear (today.year + 1)
               else .ok nb) with
        | .error msg => .error msg
        | .ok nb2 =>
          match upcomingGo today days rest with
          | .error msg => .error msg
          | .ok rest2 =>
            .ok (if 0 ≤ nb2.sub today ∧ nb2.sub today < days
                 then e.2.name.value :: rest2 else rest2)

/-- Method `AddressBook.get_upcoming_birthdays` (src/main.py lines 96-110),
with `datetime.today().date()` passed in as `today`. -/
def AddressBook.get_upcoming_birthdays (book : AddressBook) (days : Int)
    (today : Date) : Except String (List String) :=
  upcomingGo today days book.records

/-- Well-formedness of the book: keys are distinct (a Python dict cannot
hold a key twice) and every entry's key is its record's name value (the way
`add_record` keys entries). -/
def AddressBook.wf (book : AddressBook) : Prop :=
  (book.records.map Prod.fst).Nodup ∧
    ∀ e ∈ book.records, e.1 = e.2.name.value

/-- Specification-side description of the upcoming-birthday query: keep, in
directory iteration order, the name of every record whose
`days_to_birthday` value lies in `[0, 7)`. -/
def upcomingSpec (book : AddressBook) (today : Date) : List String :=
  book.records.filterMap (fun e =>
    match e.2.days_to_birthday today with
    | .ok (some n) => if 0 ≤ n ∧ n < 7 then some e.2.name.value else none
    | _ => none)

/-- A record's stored birthday (if any) survives `date.replace` into both
`today`'s year and the next: exactly the two substitutions
`get_upcoming_birthdays` and `days_to_birthday` may attempt. -/
def substOkB (r : Record) (today : Date) : Bool :=
  match r.birthday with
  | none => true
  | some b => (b.date.replaceYear today.year).isOk &&
              (b.date.replaceYear (today.year + 1)).isOk

/-- Two-digit zero-padded decimal rendering, as `strftime("%d")`/`("%m")`. -/
def pad2 (n : Nat) : String := if n < 10 then "0" ++ toString n else toString n

/-- Four-digit zero-padded decimal rendering, as `strftime("%Y")`. -/
def pad4 (n : Nat) : String :=
  if n < 10 then "000" ++ toString n
  else if n < 100 then "00" ++ toString n
  else if n < 1000 then "0" ++ toString n
  else toString n

/-- Python `date.strftime("%d.%m.%Y")`. -/
def strftimeDMY (d : Date) : String :=
  pad2 d.day ++ "." ++ pad2 d.month ++ "." ++ pad4 d.year

/-- In-place mutation of the record object stored under key `k`: the Python
handlers look a record up in the dict and mutate it, which leaves every key
in place and rebinds no entry. -/
def updateAt (l : List (String × Record)) (k : String) (r : Record) :
    List (String × Record) :=
  l.map (fun e => if e.1 = k then (k, r) else e)

/-- Handler `add_contact` (src/main.py lines 113-126), including its
`input_error` wrapper: any `ValueError` becomes the returned message. Note
the non-transactional behaviour the spec documents: when the contact is new,
`Record` and `add_record` run before `Phone(phone)` is validated, so an
invalid phone still leaves the fresh, phoneless record in the book. -/
def add_contact (args : List String) (book : AddressBook) (fresh : Nat) :
    AddressBook × Nat × String :=
  match args with
  | name :: phone :: _ =>
    match book.find name with
    | some record =>
      if phone.isEmpty then (book, fresh, "Contact updated.")
      else
        match mkPhone phone fresh with
        | .error e => (book, fresh, e)
        | .ok p =>
          (⟨updateAt book.records name (record.add_phone p)⟩, fresh + 1,
            "Contact updated.")
    | none =>
      match mkName name with
      | .error e => (book, fresh, e)
      | .ok nm =>
        let record : Record := ⟨nm, [], none⟩
        let book2 := book.add_record record
        if phone.isEmpty then (book2, fresh, "Contact added.")
        else
          match mkPhone phone fresh with
          | .error e => (book2, fresh, e)
          | .ok p =>
            (⟨updateAt book2.records name (record.add_phone p)⟩, fresh + 1,
              "Contact added.")
  | _ => (book, fresh, "Command \x27add\x27 requires both name and phone number.")

/-- Handler `add_birthday` (src/main.py lines 128-135) with its
`input_error` wrapper; unpacking `name, birthday, *_ = args` with too few
arguments raises a `ValueError` that the wrapper converts to its message. -/
def add_birthday (args : List String) (book : AddressBook) :
    AddressBook × String :=
  match args with
  | name :: bstr :: _ =>
    match book.find name with
    | none => (book, "Contact not found.")
    | some record =>
      match mkBirthday bstr with
      | .error e => (book, e)
      | .ok b =>
        (⟨updateAt book.records name (record.add_birthday b)⟩,
          "Birthday added for " ++ name ++ ".")
  | [_] => (book, "not enough values to unpack (expected at least 2, got 1)")
  | [] => (book, "not enough values to unpack (expected at least 2, got 0)")

/-- Handler `show_birthday` (src/main.py lines 137-143) with its
`input_error` wrapper. -/
def show_birthday (args : List String) (book : AddressBook) : String :=
  match args with
  | name :: _ =>
    match book.find name with
    | none => "No birthday found for this contact."
    | some record =>
      match record.birthday with
      | none => "No birthday found for this contact."
      | some b => name ++ "\x27s birthday is " ++ strftimeDMY b.date
  | [] => "not enough values to unpack (expected at least 1, got 0)"

/-- Handler `birthdays` (src/main.py lines 145-150) with its `input_error`
wrapper: the `ValueError` a Feb-29 birthday raises inside
`get_upcoming_birthdays` is caught and its message returned verbatim. -/
def birthdays (book : AddressBook) (today : Date) : String :=
  match book.get_upcoming_birthdays 7 today with
  | .error e => e
  | .ok [] => "No upcoming birthdays."
  | .ok l => String.intercalate "\n" l

/-- Inline `change` branch of `main` (src/main.py lines 170-181): builds a
fresh `Phone` from the old number, tries to remove it (identity comparison),
then appends a fresh `Phone` built from the new number; any `ValueError` in
the `try` block prints "Phone not found.". Mutations that happened before
the failure persist. -/
def changeBranch (book : AddressBook) (fresh : Nat)
    (name oldp newp : String) : AddressBook × Nat × String :=
  match book.find name with
  | none => (book, fresh, "Contact not found.")
  | some record =>
    match mkPhone oldp fresh with
    | .error _ => (book, fresh, "Phone not found.")
    | .ok p =>
      match record.remove_phone p with
      | .error _ => (book, fresh + 1, "Phone not found.")
      | .ok r2 =>
        let book2 : AddressBook := ⟨updateAt book.records name r2⟩
        match mkPhone newp (fresh + 1) with
        | .error _ => (book2, fresh + 1, "Phone not found.")
        | .ok p2 =>
          (⟨updateAt book2.records name (r2.add_phone p2)⟩, fresh + 2,
            "Phone updated.")

/-- Inline `phone` branch of `main` (src/main.py lines 183-190). -/
def phoneBranch (book : AddressBook) (name : String) : String :=
  match book.find name with
  | none => "Contact not found."
  | some record =>
    name ++ "\x27s phones: " ++
      String.intercalate ", " (record.phones.map Phone.value)

/-- Inline `all` branch of `main` (src/main.py lines 192-195): one output
line per record, in dict iteration order. -/
def allBranch (book : AddressBook) : List String :=
  book.records.map (fun e =>
    e.2.name.value ++ ": " ++
      String.intercalate ", " (e.2.phones.map Phone.value))

/-- Result of processing one command line: new book state, next fresh
object id, printed lines, and whether the loop continues. -/
abbrev StepResult := AddressBook × Nat × List String × Bool

/-- Dispatch on an already-tokenized command line, mirroring the `if`/`elif`
chain of `main` (src/main.py lines 158-207). `.error` marks an uncaught
exception that kills the process: unpacking an empty token list (line 158),
or the unguarded unpacking in the `change` (line 171) and `phone` (line 184)
branches. -/
def processTokens (book : AddressBook) (fresh : Nat) (today : Date) :
    List String → Except String StepResult
  | [] => .error "not enough values to unpack (expected at least 1, got 0)"
  | command :: args =>
    if command = "close" ∨ command = "exit" then
      .ok (book, fresh, ["Good bye!"], false)
    else if command = "hello" then
      .ok (book, fresh, ["How can I help you?"], true)
    else if command = "add" then
      let t := add_contact args book fresh
      .ok (t.1, t.2.1, [t.2.2], true)
    else if command = "change" then
      match args with
      | name :: oldp :: newp :: _ =>
        let t := changeBranch book fresh name oldp newp
        .ok (t.1, t.2.1, [t.2.2], true)
      | _ => .error ("not enough values to unpack (expected at least 3, got "
                      ++ toString args.length ++ ")")
    else if command = "phone" then
      match args with
      | name :: _ => .ok (book, fresh, [phoneBranch book name], true)
      | [] => .error "not enough values to unpack (expected at least 1, got 0)"
    else if command = "all" then
      .ok (book, fresh, allBranch book, true)
    else if command = "add-birthday" then
      let t := add_birthday args book
      .ok (t.1, fresh, [t.2], true)
    else if command = "show-birthday" then
      .ok (book, fresh, [show_birthday args book], true)
    else if command = "birthdays" then
      .ok (book, fresh, [birthdays book today], true)
    else
      .ok (book, fresh, ["Invalid command."], true)

/-- Accumulator pass for whitespace tokenization: `tok` holds the reversed
characters of the token being read. -/
def splitWsAux : List Char → List Char → List (List Char)
  | [], tok => if tok.isEmpty then [] else [tok.reverse]
  | c :: rest, tok =>
    if c.isWhitespace then
      if tok.isEmpty then splitWsAux rest []
      else tok.reverse :: splitWsAux rest []
    else splitWsAux rest (c :: tok)

/-- Python `str.split()` with no argument: split on whitespace runs,
discarding empty tokens. -/
def pySplit (s : String) : List String :=
  (splitWsAux s.data []).map (fun l => ⟨l⟩)

/-- Processing of one raw input line by the loop body of `main`:
`command, *args = user_input.split()` followed by dispatch. -/
def processLine (book : AddressBook) (fresh : Nat) (today : Date)
    (line : String) : Except String StepResult :=
  processTokens book fresh today (pySplit line)

/-! ### Calendar arithmetic lemmas -/

theorem days_before_month_succ (L : Bool) (m : Nat) (h : 1 ≤ m) :
    days_before_month L (m + 1) = days_before_month L m + days_in_month L m := by
  unfold days_before_month
  have h1 : m + 1 - 1 = (m - 1) + 1 := by omega
  have h2 : m - 1 + 1 = m := by omega
  rw [h1, List.range_succ, List.map_append, List.sum_append]
  simp only [List.map_cons, List.map_nil, List.sum_cons, List.sum_nil,
    add_zero, h2]

theorem days_before_month_mono (L : Bool) {m1 m2 : Nat} (h1 : 1 ≤ m1)
    (h : m1 < m2) :
    days_before_month L m1 + days_in_month L m1 ≤ days_before_month L m2 := by
  induction m2 with
  | zero => omega
  | succ n ih =>
    rcases Nat.lt_succ_iff_lt_or_eq.mp h with h' | h'
    · have hle := ih h'
      have hn : 1 ≤ n := by omega
      rw [days_before_month_succ L n hn]
      omega
    · subst h'
      rw [days_before_month_succ L m1 h1]

theorem doy_le (L : Bool) {m d : Nat} (hm1 : 1 ≤ m) (hm : m ≤ 12)
    (hd : d ≤ days_in_month L m) :
    days_before_month L m + d ≤ 365 + (if L then 1 else 0) := by
  have htot : days_before_month L 12 + days_in_month L 12 =
      365 + (if L then 1 else 0) := by
    cases L <;> decide
  rcases Nat.lt_or_ge m 12 with h | h
  · have := days_before_month_mono L hm1 h
    omega
  · have h12 : m = 12 := by omega
    subst h12
    omega

theorem leapsBefore_succ (y : Nat) :
    leapsBefore (y + 1) = leapsBefore y + (if isLeap (y + 1) then 1 else 0) := by
  by_cases hL : isLeap (y + 1) = true
  · rw [if_pos hL]
    simp only [isLeap, Bool.or_eq_true, Bool.and_eq_true, beq_iff_eq,
      bne_iff_ne, ne_eq] at hL
    unfold leapsBefore
    omega
  · rw [if_neg hL]
    simp only [isLeap, Bool.or_eq_true, Bool.and_eq_true, beq_iff_eq,
      bne_iff_ne, ne_eq, not_or, not_and, not_not] at hL
    unfold leapsBefore
    omega

theorem yearOrd_mono {y1 y2 : Nat} (h : y1 ≤ y2) :
    365 * y1 + leapsBefore y1 ≤ 365 * y2 + leapsBefore y2 := by
  induction y2 with
  | zero =>
    have : y1 = 0 := by omega
    simp [this]
  | succ n ih =>
    rcases Nat.eq_or_lt_of_le h with rfl | h'
    · exact le_refl _
    · have hle := ih (by omega)
      rw [leapsBefore_succ n]
      split_ifs <;> omega

theorem replaceYear_of_isOk {d : Date} {y : Nat}
    (h : (d.replaceYear y).isOk = true) :
    d.replaceYear y = .ok ⟨y, d.month, d.day⟩ ∧ 1 ≤ y ∧ y ≤ 9999 ∧
      d.day ≤ days_in_month (isLeap y) d.month := by
  unfold Date.replaceYear at h ⊢
  split_ifs at h ⊢ with h1 h2
  · simp [Except.isOk, Except.toBool] at h
  · simp [Except.isOk, Except.toBool] at h
  · exact ⟨rfl, by omega, by omega, by omega⟩

theorem toordinal_lt_of_lt {a b : Date} (ha : a.valid = true)
    (hb : b.valid = true) (hlt : a.lt b = true) :
    a.toordinal < b.toordinal := by
  simp only [Date.valid, decide_eq_true_eq] at ha hb
  simp only [Date.lt, decide_eq_true_eq] at hlt
  obtain ⟨ha1, ha2, ha3, ha4, ha5, ha6⟩ := ha
  obtain ⟨hb1, hb2, hb3, hb4, hb5, hb6⟩ := hb
  unfold Date.toordinal
  rcases hlt with hy | ⟨hy, hmd⟩
  · have hdoy : days_before_month (isLeap a.year) a.month + a.day ≤
        365 + (if isLeap a.year then 1 else 0) := doy_le _ ha3 ha4 ha6
    have hstep := leapsBefore_succ (a.year - 1)
    have hyy : a.year - 1 + 1 = a.year := by omega
    rw [hyy] at hstep
    have hmono : 365 * a.year + leapsBefore a.year ≤
        365 * (b.year - 1) + leapsBefore (b.year - 1) := yearOrd_mono (by omega)
    split_ifs at hdoy hstep <;> omega
  · rw [hy]
    rcases hmd with hm | ⟨hm, hd⟩
    · have h1 : a.day ≤ days_in_month (isLeap b.year) a.month := hy ▸ ha6
      have h2 := days_before_month_mono (isLeap b.year) ha3 hm
      omega
    · rw [hm]
      omega

theorem toordinal_le_of_not_lt {a b : Date} (ha : a.valid = true)
    (hb : b.valid = true) (h : a.lt b = false) :
    b.toordinal ≤ a.toordinal := by
  by_cases hba : b.lt a = true
  · exact le_of_lt (toordinal_lt_of_lt hb ha hba)
  · simp only [Date.lt, decide_eq_false_iff_not] at h
    simp only [Date.lt, decide_eq_true_eq] at hba
    have h1 : a.year = b.year := by omega
    have h2 : a.month = b.month := by omega
    have h3 : a.day = b.day := by omega
    have hab : a = b := by
      cases a; cases b; simp_all
    rw [hab]

/-! ### Lemmas about dot-splitting -/

theorem splitDots_ne_nil (l : List Char) : splitDots l ≠ [] := by
  cases l with
  | nil => simp [splitDots]
  | cons c rest =>
    unfold splitDots
    by_cases hc : c = '.'
    · simp [hc]
    · rw [if_neg hc]
      cases hsp : splitDots rest <;> simp

theorem joinDots_cons (x : List Char) {r : List (List Char)} (h : r ≠ []) :
    joinDots (x :: r) = x ++ '.' :: joinDots r := by
  cases r with
  | nil => exact absurd rfl h
  | cons y ys => rfl

theorem joinDots_splitDots (l : List Char) : joinDots (splitDots l) = l := by
  induction l with
  | nil => rfl
  | cons c rest ih =>
    unfold splitDots
    by_cases hc : c = '.'
    · rw [if_pos hc, joinDots_cons _ (splitDots_ne_nil rest), ih, hc]
      simp
    · rw [if_neg hc]
      cases hsp : splitDots rest with
      | nil => exact absurd hsp (splitDots_ne_nil rest)
      | cons p ps =>
        rw [hsp] at ih
        cases ps with
        | nil =>
          have hp : p = rest := ih
          simp [joinDots, hp]
        | cons q qs =>
          rw [joinDots_cons _ (by simp)] at ih ⊢
          rw [List.cons_append, ih]

theorem splitDots_parts_no_dot {l : List Char} :
    ∀ p ∈ splitDots l, '.' ∉ p := by
  induction l with
  | nil =>
    intro p hp
    simp [splitDots] at hp
    simp [hp]
  | cons c rest ih =>
    intro p hp
    unfold splitDots at hp
    by_cases hc : c = '.'
    · rw [if_pos hc] at hp
      rcases List.mem_cons.mp hp with rfl | hp'
      · simp
      · exact ih p hp'
    · rw [if_neg hc] at hp
      cases hsp : splitDots rest with
      | nil => exact absurd hsp (splitDots_ne_nil rest)
      | cons q qs =>
        rw [hsp] at hp
        rcases List.mem_cons.mp hp with rfl | hp'
        · intro hmem
          rcases List.mem_cons.mp hmem with h' | h'
          · exact hc h'.symm
          · exact ih q (hsp ▸ List.mem_cons_self _ _) h'
        · exact ih p (hsp ▸ List.mem_cons_of_mem _ hp')

theorem splitDots_no_sep {a : List Char} (ha : '.' ∉ a) : splitDots a = [a] := by
  induction a with
  | nil => rfl
  | cons c cs ih =>
    have hc : c ≠ '.' := fun h => ha (h ▸ List.mem_cons_self _ _)
    have ha' : '.' ∉ cs := fun h => ha (List.mem_cons_of_mem _ h)
    unfold splitDots
    rw [if_neg hc, ih ha']

theorem splitDots_append_sep {a : List Char} (ha : '.' ∉ a) (l : List Char) :
    splitDots (a ++ '.' :: l) = a :: splitDots l := by
  induction a with
  | nil => simp [splitDots]
  | cons c cs ih =>
    have hc : c ≠ '.' := fun h => ha (h ▸ List.mem_cons_self _ _)
    have ha' : '.' ∉ cs := fun h => ha (List.mem_cons_of_mem _ h)
    rw [List.cons_append]
    show splitDots (c :: (cs ++ '.' :: l)) = (c :: cs) :: splitDots l
    rw [splitDots, if_neg hc, ih ha']

/-! ### Lemmas about the dict model -/

theorem ior_mem {l : List (String × Record)} {k : String} {r : Record} :
    ∀ e ∈ insertOrReplace l k r, e ∈ l ∨ e = (k, r) := by
  induction l with
  | nil =>
    intro e he
    simp [insertOrReplace] at he
    simp [he]
  | cons hd rest ih =>
    intro e he
    rw [show insertOrReplace (hd :: rest) k r =
        (if hd.1 = k then (k, r) :: rest
         else hd :: insertOrReplace rest k r) from by
      cases hd; rfl] at he
    split_ifs at he with hk
    · rcases List.mem_cons.mp he with rfl | he'
      · right; rfl
      · left; exact List.mem_cons_of_mem _ he'
    · rcases List.mem_cons.mp he with rfl | he'
      · left; exact List.mem_cons_self _ _
      · rcases ih e he' with h' | h'
        · left; exact List.mem_cons_of_mem _ h'
        · right; exact h'

theorem ior_keys_nodup {l : List (String × Record)} {k : String} {r : Record}
    (h : (l.map Prod.fst).Nodup) :
    ((insertOrReplace l k r).map Prod.fst).Nodup := by
  induction l with
  | nil => simp [insertOrReplace]
  | cons hd rest ih =>
    rw [show insertOrReplace (hd :: rest) k r =
        (if hd.1 = k then (k, r) :: rest
         else hd :: insertOrReplace rest k r) from by
      cases hd; rfl]
    simp only [List.map_cons, List.nodup_cons] at h
    split_ifs with hk
    · simp only [List.map_cons, List.nodup_cons]
      exact ⟨hk ▸ h.1, h.2⟩
    · simp only [List.map_cons, List.nodup_cons]
      refine ⟨fun hmem => ?_, ih h.2⟩
      rw [List.mem_map] at hmem
      obtain ⟨e, he, hke⟩ := hmem
      rcases ior_mem e he with h' | h'
      · exact h.1 (hke ▸ List.mem_map_of_mem Prod.fst h')
      · exact hk (by rw [h'] at hke; exact hke.symm ▸ rfl)

theorem filter_key_nil {l : List (String × Record)} {k : String}
    (h : k ∉ l.map Prod.fst) :
    l.filter (fun e => e.1 == k) = [] := by
  induction l with
  | nil => rfl
  | cons hd rest ih =>
    simp only [List.map_cons, List.mem_cons, not_or] at h
    rw [List.filter_cons]
    have : (hd.1 == k) = false := by
      simp only [beq_eq_false_iff_ne, ne_eq]
      exact fun he => h.1 he.symm
    simp only [this, Bool.false_eq_true, if_neg (by simp : ¬false = true)]
    exact ih h.2

theorem ior_filter_key {l : List (String × Record)} {k : String} {r : Record}
    (h : (l.map Prod.fst).Nodup) :
    (insertOrReplace l k r).filter (fun e => e.1 == k) = [(k, r)] := by
  induction l with
  | nil => simp [insertOrReplace]
  | cons hd rest ih =>
    rw [show insertOrReplace (hd :: rest) k r =
        (if hd.1 = k then (k, r) :: rest
         else hd :: insertOrReplace rest k r) from by
      cases hd; rfl]
    simp only [List.map_cons, List.nodup_cons] at h
    split_ifs with hk
    · rw [List.filter_cons]
      simp [filter_key_nil (hk ▸ h.1)]
    · rw [List.filter_cons]
      have : (hd.1 == k) = false := by
        simp only [beq_eq_false_iff_ne, ne_eq]
        exact hk
      simp only [this, Bool.false_eq_true, if_neg (by simp : ¬false = true)]
      exact ih h.2

theorem ior_find? {l : List (String × Record)} {k : String} {r : Record} :
    (insertOrReplace l k r).find? (fun e => e.1 == k) = some (k, r) := by
  induction l with
  | nil => simp [insertOrReplace]
  | cons hd rest ih =>
    rw [show insertOrReplace (hd :: rest) k r =
        (if hd.1 = k then (k, r) :: rest
         else hd :: insertOrReplace rest k r) from by
      cases hd; rfl]
    split_ifs with hk
    · simp [List.find?]
    · rw [List.find?_cons]
      have : (hd.1 == k) = false := by
        simp only [beq_eq_false_iff_ne, ne_eq]
        exact hk
      rw [this]
      exact ih

/-! ### Lemmas about the upcoming-birthdays traversal -/

theorem upcomingGo_error_of_feb29 (days : Int) {today : Date}
    {l : List (String × Record)} {e0 : String × Record} (hmem : e0 ∈ l)
    {b : Birthday} (hb : e0.2.birthday = some b)
    (hm : b.date.month = 2) (hd : b.date.day = 29)
    (hleap : isLeap today.year = false)
    (hy1 : 1 ≤ today.year) (hy2 : today.year ≤ 9999) :
    ∃ msg, upcomingGo today days l = .error msg := by
  induction l with
  | nil => cases hmem
  | cons e rest ih =>
    rcases List.mem_cons.mp hmem with rfl | hmem'
    · have hfail : b.date.replaceYear today.year =
          .error "day is out of range for month" := by
        unfold Date.replaceYear
        rw [if_neg (by omega), if_pos (by rw [hm, hd, hleap]; decide)]
      refine ⟨"day is out of range for month", ?_⟩
      simp only [upcomingGo, hb, hfail]
    · obtain ⟨msg, hmsg⟩ := ih hmem'
      cases hbd : e.2.birthday with
      | none =>
        refine ⟨msg, ?_⟩
        simp only [upcomingGo, hbd]
        exact hmsg
      | some b' =>
        cases h1 : b'.date.replaceYear today.year with
        | error m =>
          refine ⟨m, ?_⟩
          simp only [upcomingGo, hbd, h1]
        | ok nb =>
          cases h2 : (if nb.lt today then b'.date.replaceYear (today.year + 1)
                      else .ok nb) with
          | error m =>
            refine ⟨m, ?_⟩
            simp only [upcomingGo, hbd, h1, h2]
          | ok nb2 =>
            refine ⟨msg, ?_⟩
            simp only [upcomingGo, hbd, h1, h2, hmsg]

theorem upcomingGo_eq_spec {today : Date} {l : List (String × Record)}
    (h : ∀ e ∈ l, substOkB e.2 today = true) :
    upcomingGo today 7 l = .ok (l.filterMap (fun e =>
      match e.2.days_to_birthday today with
      | .ok (some n) => if 0 ≤ n ∧ n < 7 then some e.2.name.value else none
      | _ => none)) := by
  induction l with
  | nil => rfl
  | cons e rest ih =>
    have he := h e (List.mem_cons_self _ _)
    have ihr := ih (fun e' he' => h e' (List.mem_cons_of_mem _ he'))
    cases hbd : e.2.birthday with
    | none =>
      simp only [upcomingGo, hbd, ihr, List.filterMap_cons,
        Record.days_to_birthday]
    | some b =>
      unfold substOkB at he
      rw [hbd] at he
      simp only [Bool.and_eq_true] at he
      obtain ⟨hok1, hok2⟩ := he
      obtain ⟨heq1, -, -, -⟩ := replaceYear_of_isOk hok1
      by_cases hlt : (Date.lt ⟨today.year, b.date.month, b.date.day⟩ today) = true
      · obtain ⟨heq2, -, -, -⟩ := replaceYear_of_isOk hok2
        simp only [upcomingGo, hbd, heq1, hlt, if_true, heq2, ihr,
          List.filterMap_cons, Record.days_to_birthday]
        split <;> rfl
      · rw [Bool.not_eq_true] at hlt
        simp only [upcomingGo, hbd, heq1, hlt, Bool.false_eq_true, if_false,
          ihr, List.filterMap_cons, Record.days_to_birthday]
        split <;> rfl

/-! ### Claim theorems -/

/-- C1 (code bug, evaluation at the failing input): a record holds a phone
whose value equals the argument phone's value, yet `remove_phone` raises
`ValueError` and removes nothing, because `list.remove` compares `Field`
objects by identity (no `__eq__`), never by value. The claim's value-based
removal is the documented intent (the `change` branch maps this error to
"Phone not found." and its "Phone updated." success path is unreachable). -/
theorem C1_remove_phone_identity_bug :
    (∃ q ∈ ({ name := ⟨"John"⟩, phones := [⟨"1234567890", 0⟩],
              birthday := none } : Record).phones,
        q.value = ("1234567890" : String)) ∧
    ({ name := ⟨"John"⟩, phones := [⟨"1234567890", 0⟩],
       birthday := none } : Record).remove_phone ⟨"1234567890", 1⟩ =
      .error "list.remove(x): x not in list" :=
  ⟨⟨⟨"1234567890", 0⟩, by simp, rfl⟩, rfl⟩

/-- C2 counterexample: with John holding phones 1234567890 and 0987654321
(object ids 0 and 1; next fresh id 2), the command
`change John 1234567890 1112223333` does not succeed: it prints
"Phone not found." and leaves the book — in particular John's phone list —
exactly as it was, not `[1112223333, 0987654321]` as the claim states. -/
theorem C2_change_counterexample :
    processTokens
      ⟨[("John", ⟨⟨"John"⟩, [⟨"1234567890", 0⟩, ⟨"0987654321", 1⟩], none⟩)]⟩
      2 ⟨2024, 1, 1⟩ ["change", "John", "1234567890", "1112223333"] =
    .ok (⟨[("John", ⟨⟨"John"⟩, [⟨"1234567890", 0⟩, ⟨"0987654321", 1⟩],
            none⟩)]⟩, 3, ["Phone not found."], true) := by
  rfl

/-- C2 amended: whatever the object ids `o1`, `o2` of John's stored phones
and the id `fresh` of the next allocated object (fresh ids are distinct from
stored ones), `change John 1234567890 1112223333` prints "Phone not found."
and leaves John's phones `[1234567890, 0987654321]` unchanged: the freshly
constructed `Phone("1234567890")` is a different object from the stored one,
so the identity-based `list.remove` fails even though the values match. -/
theorem C2_change_amended (o1 o2 fresh : Nat) (today : Date)
    (h1 : fresh ≠ o1) (h2 : fresh ≠ o2) :
    processTokens
      ⟨[("John", ⟨⟨"John"⟩, [⟨"1234567890", o1⟩, ⟨"0987654321", o2⟩],
         none⟩)]⟩ fresh today ["change", "John", "1234567890", "1112223333"] =
    .ok (⟨[("John", ⟨⟨"John"⟩, [⟨"1234567890", o1⟩, ⟨"0987654321", o2⟩],
            none⟩)]⟩, fresh + 1, ["Phone not found."], true) := by
  have hrm : listRemovePhone [⟨"1234567890", o1⟩, ⟨"0987654321", o2⟩]
      ⟨"1234567890", fresh⟩ = .error "list.remove(x): x not in list" := by
    simp only [listRemovePhone]
    rw [if_neg (Ne.symm h1), if_neg (Ne.symm h2)]
  have hcb : changeBranch
      ⟨[("John", ⟨⟨"John"⟩, [⟨"1234567890", o1⟩, ⟨"0987654321", o2⟩],
         none⟩)]⟩ fresh "John" "1234567890" "1112223333" =
      (⟨[("John", ⟨⟨"John"⟩, [⟨"1234567890", o1⟩, ⟨"0987654321", o2⟩],
          none⟩)]⟩, fresh + 1, "Phone not found.") := by
    unfold changeBranch
    have hfind : (AddressBook.mk [("John",
        ⟨⟨"John"⟩, [⟨"1234567890", o1⟩, ⟨"0987654321", o2⟩], none⟩)]).find
        "John" = some ⟨⟨"John"⟩, [⟨"1234567890", o1⟩, ⟨"0987654321", o2⟩],
          none⟩ := rfl
    rw [hfind]
    have hmk : mkPhone "1234567890" fresh = .ok ⟨"1234567890", fresh⟩ := rfl
    rw [hmk]
    simp only [Record.remove_phone, hrm]
  simp only [processTokens]
  rw [if_neg (by decide), if_neg (by decide), if_neg (by decide),
    if_pos (by decide)]
  simp only [hcb]

/-- C2 witness for the amended theorem: the concrete ids 0, 1, 2. -/
theorem C2_change_amended_witness :
    processTokens
      ⟨[("John", ⟨⟨"John"⟩, [⟨"1234567890", 0⟩, ⟨"0987654321", 1⟩],
         none⟩)]⟩ 2 ⟨2024, 6, 1⟩ ["change", "John", "1234567890", "1112223333"] =
    .ok (⟨[("John", ⟨⟨"John"⟩, [⟨"1234567890", 0⟩, ⟨"0987654321", 1⟩],
            none⟩)]⟩, 2 + 1, ["Phone not found."], true) :=
  C2_change_amended 0 1 2 ⟨2024, 6, 1⟩ (by decide) (by decide)

/-- C3 counterexample: the inherited `Field.value` setter is a mutation
operation available after construction, and it validates nothing: a `Name`
built from the alphabetic "John" comes to hold the non-alphabetic "John3"
after one setter call, contradicting both halves of the claim. -/
theorem C3_setter_counterexample :
    mkName "John" = .ok ⟨"John"⟩ ∧
    (Name.setValue ⟨"John"⟩ "John3").value = "John3" ∧
    isalphaStr (Name.setValue ⟨"John"⟩ "John3").value = false :=
  ⟨rfl, rfl, rfl⟩

/-- C3 amended: validation happens only in the subclass constructors (a
value produced by `mkName` always satisfies the predicate), but the
inherited `value` setter stores any value verbatim, with no validation, so
a constructed `Name` can later hold an invalid value. -/
theorem C3_setter_amended :
    (∀ (n : Name) (v : String), (Name.setValue n v).value = v) ∧
    (∀ (p : Phone) (v : String), (Phone.setValue p v).value = v) ∧
    (∀ (s : String) (n : Name), mkName s = .ok n → isalphaStr n.value = true) := by
  refine ⟨fun n v => rfl, fun p v => rfl, fun s n h => ?_⟩
  unfold mkName at h
  by_cases hs : isalphaStr s = true
  · rw [if_pos hs] at h
    injection h with h'
    rw [← h']
    exact hs
  · rw [if_neg hs] at h
    exact absurd h (by simp)

/-- C3 witness: the amended theorem applied to the concrete name "John". -/
theorem C3_setter_amended_witness :
    isalphaStr (Name.value ⟨"John"⟩) = true :=
  C3_setter_amended.2.2 "John" ⟨"John"⟩ rfl

/-- C4 counterexample: `Birthday("1.1.1990")` succeeds (decoding to
January 1, 1990), although the claim says every text without two-digit day
and month must fail: `strptime`'s `%d` and `%m` accept one-digit fields. -/
theorem C4_one_digit_counterexample :
    mkBirthday "1.1.1990" = .ok ⟨"1.1.1990", ⟨1990, 1, 1⟩⟩ := rfl

/-- C4 amended: `Birthday(s)` succeeds iff `s` splits at two literal dots
into a 1-2 digit day (1-31), a 1-2 digit month (1-12) and an exactly
4-digit year naming a real calendar date (year at least 1, day within the
month); "31.02.1990" and "1990-01-01" still fail and "01.01.1990" still
succeeds, but so do one-digit forms like "1.1.1990". -/
theorem C4_format_amended :
    (∀ s : String, (mkBirthday s).isOk = true ↔ birthdayAccepted s) ∧
    (mkBirthday "31.02.1990").isOk = false ∧
    (mkBirthday "1990-01-01").isOk = false ∧
    (mkBirthday "01.01.1990").isOk = true ∧
    (mkBirthday "1.1.1990").isOk = true := by
  refine ⟨fun s => ?_, rfl, rfl, rfl, rfl⟩
  constructor
  · intro h
    unfold mkBirthday at h
    cases hp : strptimeDMY s with
    | none => rw [hp] at h; simp [Except.isOk, Except.toBool] at h
    | some d =>
      unfold strptimeDMY at hp
      cases h1 : splitDots s.data with
      | nil => rw [h1] at hp; exact absurd hp (by simp)
      | cons a t1 =>
        cases t1 with
        | nil => rw [h1] at hp; exact absurd hp (by simp)
        | cons b t2 =>
          cases t2 with
          | nil => rw [h1] at hp; exact absurd hp (by simp)
          | cons c t3 =>
            cases t3 with
            | cons x t4 => rw [h1] at hp; exact absurd hp (by simp)
            | nil =>
              rw [h1] at hp
              simp only [] at hp
              split_ifs at hp with htok hval
              · have hjoin := joinDots_splitDots s.data
                rw [h1] at hjoin
                have hjoin' : s.data = a ++ ('.' :: (b ++ ('.' :: c))) := by
                  rw [← hjoin]
                  rfl
                simp only [Bool.and_eq_true] at htok
                obtain ⟨⟨hta, htb⟩, htc⟩ := htok
                simp only [dayTok, Bool.and_eq_true, List.all_eq_true,
                  decide_eq_true_eq] at hta
                simp only [monthTok, Bool.and_eq_true, List.all_eq_true,
                  decide_eq_true_eq] at htb
                simp only [yearTok, Bool.and_eq_true, List.all_eq_true,
                  decide_eq_true_eq] at htc
                refine ⟨a, b, c, hjoin', hta.1.1.1.1, hta.1.1.1.2,
                  hta.1.1.2, hta.1.2, hta.2, htb.1.1.1.1, htb.1.1.1.2,
                  htb.1.1.2, htb.1.2, htb.2, htc.1, htc.2, hval.1, hval.2⟩
  · rintro ⟨a, b, c, hdata, ha1, ha2, ha3, ha4, ha5, hb1, hb2, hb3, hb4,
      hb5, hc1, hc2, hy1, hd1⟩
    have hnda : '.' ∉ a := fun hmem => by
      have := ha1 _ hmem
      simp at this
    have hndb : '.' ∉ b := fun hmem => by
      have := hb1 _ hmem
      simp at this
    have hndc : '.' ∉ c := fun hmem => by
      have := hc1 _ hmem
      simp at this
    have hsd : splitDots s.data = [a, b, c] := by
      rw [hdata, splitDots_append_sep hnda, splitDots_append_sep hndb,
        splitDots_no_sep hndc]
    have hta : dayTok a = true := by
      simp only [dayTok, Bool.and_eq_true, List.all_eq_true,
        decide_eq_true_eq]
      exact ⟨⟨⟨⟨ha1, ha2⟩, ha3⟩, ha4⟩, ha5⟩
    have htb : monthTok b = true := by
      simp only [monthTok, Bool.and_eq_true, List.all_eq_true,
        decide_eq_true_eq]
      exact ⟨⟨⟨⟨hb1, hb2⟩, hb3⟩, hb4⟩, hb5⟩
    have htc : yearTok c = true := by
      simp only [yearTok, Bool.and_eq_true, List.all_eq_true,
        decide_eq_true_eq]
      exact ⟨hc1, hc2⟩
    simp only [mkBirthday, strptimeDMY, hsd]
    rw [if_pos (by simp only [Bool.and_eq_true]; exact ⟨⟨hta, htb⟩, htc⟩),
      if_pos ⟨hy1, hd1⟩]
    rfl

/-- C5 counterexample: an empty input line is fatal. The unpacking
`command, *args = user_input.split()` raises an uncaught `ValueError`
(tokenizing the empty line yields no tokens), so the process dies — the
claim's "no error is fatal ... including empty lines" is false. -/
theorem C5_empty_line_counterexample :
    processLine ⟨[]⟩ 0 ⟨2024, 1, 1⟩ "" =
      .error "not enough values to unpack (expected at least 1, got 0)" := rfl

/-- C5 amended: a line that tokenizes to at least one token, with at least
three arguments when the command is `change` and at least one when it is
`phone`, is never fatal: processing returns normally, and the loop stops
exactly on `close`/`exit`. (Empty lines and under-supplied `change`/`phone`
lines, by contrast, raise uncaught errors that kill the process.) -/
theorem C5_loop_amended (book : AddressBook) (fresh : Nat) (today : Date)
    (line : String) (cmd : String) (args : List String)
    (htok : pySplit line = cmd :: args)
    (hch : cmd = "change" → 3 ≤ args.length)
    (hph : cmd = "phone" → 1 ≤ args.length) :
    ∃ st : StepResult, processLine book fresh today line = .ok st ∧
      (st.2.2.2 = false ↔ (cmd = "close" ∨ cmd = "exit")) := by
  unfold processLine
  rw [htok]
  simp only [processTokens]
  by_cases h1 : cmd = "close" ∨ cmd = "exit"
  · rw [if_pos h1]
    exact ⟨_, rfl, by simp [h1]⟩
  · rw [if_neg h1]
    by_cases h2 : cmd = "hello"
    · rw [if_pos h2]
      exact ⟨_, rfl, by simp [h1]⟩
    · rw [if_neg h2]
      by_cases h3 : cmd = "add"
      · rw [if_pos h3]
        exact ⟨_, rfl, by simp [h1]⟩
      · rw [if_neg h3]
        by_cases h4 : cmd = "change"
        · rw [if_pos h4]
          have hlen := hch h4
          match args, hlen with
          | a1 :: a2 :: a3 :: rest, _ =>
            exact ⟨_, rfl, by simp [h1]⟩
        · rw [if_neg h4]
          by_cases h5 : cmd = "phone"
          · rw [if_pos h5]
            have hlen := hph h5
            match args, hlen with
            | a1 :: rest, _ =>
              exact ⟨_, rfl, by simp [h1]⟩
          · rw [if_neg h5]
            by_cases h6 : cmd = "all"
            · rw [if_pos h6]
              exact ⟨_, rfl, by simp [h1]⟩
            · rw [if_neg h6]
              by_cases h7 : cmd = "add-birthday"
              · rw [if_pos h7]
                exact ⟨_, rfl, by simp [h1]⟩
              · rw [if_neg h7]
                by_cases h8 : cmd = "show-birthday"
                · rw [if_pos h8]
                  exact ⟨_, rfl, by simp [h1]⟩
                · rw [if_neg h8]
                  by_cases h9 : cmd = "birthdays"
                  · rw [if_pos h9]
                    exact ⟨_, rfl, by simp [h1]⟩
                  · rw [if_neg h9]
                    exact ⟨_, rfl, by simp [h1]⟩

/-- C5 witness: the amended theorem applied to the line "hello" on an empty
book. -/
theorem C5_loop_amended_witness :
    ∃ st : StepResult, processLine ⟨[]⟩ 0 ⟨2024, 1, 1⟩ "hello" = .ok st ∧
      (st.2.2.2 = false ↔
        (("hello" : String) = "close" ∨ ("hello" : String) = "exit")) :=
  C5_loop_amended ⟨[]⟩ 0 ⟨2024, 1, 1⟩ "hello" "hello" [] (by decide)
    (by decide) (by decide)

/-- C6 counterexample: for a stored birthday of February 29 and a non-leap
current year, `days_to_birthday` does not return a non-negative integer as
the claim demands for every record and date: `date.replace` raises
`ValueError` instead. -/
theorem C6_feb29_counterexample :
    (⟨⟨"Leap"⟩, [], some ⟨"29.02.1992", ⟨1992, 2, 29⟩⟩⟩ :
        Record).days_to_birthday ⟨2023, 1, 1⟩ =
      .error "day is out of range for month" ∧
    ((⟨⟨"Leap"⟩, [], some ⟨"29.02.1992", ⟨1992, 2, 29⟩⟩⟩ :
        Record).days_to_birthday ⟨2023, 1, 1⟩).isOk = false :=
  ⟨rfl, rfl⟩

/-- C6 amended: provided the birthday's month/day substitutes validly into
both the current and the next year (which only fails for Feb 29 around
non-leap years), `days_to_birthday` returns a non-negative day count, which
is 0 when today's month and day equal the birthday's, and equals the day
count to next year's occurrence when this year's occurrence is strictly
before today; it returns none when no birthday is set. -/
theorem C6_days_amended (r : Record) (b : Birthday) (today : Date)
    (hb : r.birthday = some b)
    (hvb : b.date.valid = true) (hvt : today.valid = true)
    (hs1 : (b.date.replaceYear today.year).isOk = true)
    (hs2 : (b.date.replaceYear (today.year + 1)).isOk = true) :
    (∃ n : Int, r.days_to_birthday today = .ok (some n) ∧ 0 ≤ n ∧
      (b.date.month = today.month → b.date.day = today.day → n = 0) ∧
      ((Date.lt ⟨today.year, b.date.month, b.date.day⟩ today) = true →
        n = Date.sub ⟨today.year + 1, b.date.month, b.date.day⟩ today)) ∧
    (∀ r' : Record, r'.birthday = none →
      r'.days_to_birthday today = .ok none) := by
  obtain ⟨heq1, hy1, hy2, hd1⟩ := replaceYear_of_isOk hs1
  obtain ⟨heq2, hy1', hy2', hd2⟩ := replaceYear_of_isOk hs2
  refine ⟨?_, fun r' hr' => by simp [Record.days_to_birthday, hr']⟩
  have hvbP := hvb
  have hvtP := hvt
  simp only [Date.valid, decide_eq_true_eq] at hvbP hvtP
  have hvnb : (⟨today.year, b.date.month, b.date.day⟩ : Date).valid = true := by
    simp only [Date.valid, decide_eq_true_eq]
    exact ⟨by omega, by omega, by omega, by omega, by omega, hd1⟩
  have hvnb2 : (⟨today.year + 1, b.date.month, b.date.day⟩ : Date).valid =
      true := by
    simp only [Date.valid, decide_eq_true_eq]
    exact ⟨by omega, by omega, by omega, by omega, by omega, hd2⟩
  by_cases hlt : (Date.lt ⟨today.year, b.date.month, b.date.day⟩ today) = true
  · refine ⟨Date.sub ⟨today.year + 1, b.date.month, b.date.day⟩ today,
      ?_, ?_, ?_, fun _ => rfl⟩
    · simp only [Record.days_to_birthday, hb, heq1, hlt, if_true, heq2]
    · have hlt2 : Date.lt today ⟨today.year + 1, b.date.month, b.date.day⟩ =
          true := by
        simp only [Date.lt, decide_eq_true_eq]
        left
        omega
      have := toordinal_lt_of_lt hvt hvnb2 hlt2
      unfold Date.sub
      omega
    · intro hm hd
      have heqd : (⟨today.year, b.date.month, b.date.day⟩ : Date) = today := by
        rw [hm, hd]
      rw [heqd] at hlt
      simp only [Date.lt, decide_eq_true_eq] at hlt
      omega
  · rw [Bool.not_eq_true] at hlt
    refine ⟨Date.sub ⟨today.year, b.date.month, b.date.day⟩ today,
      ?_, ?_, ?_, ?_⟩
    · simp only [Record.days_to_birthday, hb, heq1, hlt, Bool.false_eq_true,
        if_false]
    · have := toordinal_le_of_not_lt hvnb hvt hlt
      unfold Date.sub
      omega
    · intro hm hd
      have heqd : (⟨today.year, b.date.month, b.date.day⟩ : Date) = today := by
        rw [hm, hd]
      rw [heqd]
      unfold Date.sub
      omega
    · intro h
      simp [hlt] at h

/-- C6 witness: Mary's birthday June 15 with today June 15, 2024 — the
amended theorem's conclusion at a concrete record and date. -/
theorem C6_days_amended_witness :
    (∃ n : Int,
      (⟨⟨"Mary"⟩, [], some ⟨"15.06.1995", ⟨1995, 6, 15⟩⟩⟩ :
          Record).days_to_birthday ⟨2024, 6, 15⟩ = .ok (some n) ∧ 0 ≤ n ∧
      ((⟨"15.06.1995", ⟨1995, 6, 15⟩⟩ : Birthday).date.month =
          (⟨2024, 6, 15⟩ : Date).month →
        (⟨"15.06.1995", ⟨1995, 6, 15⟩⟩ : Birthday).date.day =
          (⟨2024, 6, 15⟩ : Date).day → n = 0) ∧
      ((Date.lt ⟨2024, 6, 15⟩ ⟨2024, 6, 15⟩) = true →
        n = Date.sub ⟨2024 + 1, 6, 15⟩ ⟨2024, 6, 15⟩)) ∧
    (∀ r' : Record, r'.birthday = none →
      r'.days_to_birthday ⟨2024, 6, 15⟩ = .ok none) :=
  C6_days_amended ⟨⟨"Mary"⟩, [], some ⟨"15.06.1995", ⟨1995, 6, 15⟩⟩⟩
    ⟨"15.06.1995", ⟨1995, 6, 15⟩⟩ ⟨2024, 6, 15⟩ rfl (by decide) (by decide)
    (by decide) (by decide)

/-- C7 counterexample: with a February 29 birthday on file and a non-leap
`today`, `get_upcoming_birthdays` does not return any list of names (as the
claim requires of every directory state): it raises `ValueError`. -/
theorem C7_feb29_counterexample :
    AddressBook.get_upcoming_birthdays
        ⟨[("Ann", ⟨⟨"Ann"⟩, [], some ⟨"29.02.1992", ⟨1992, 2, 29⟩⟩⟩)]⟩ 7
        ⟨2023, 1, 1⟩ = .error "day is out of range for month" ∧
    (AddressBook.get_upcoming_birthdays
        ⟨[("Ann", ⟨⟨"Ann"⟩, [], some ⟨"29.02.1992", ⟨1992, 2, 29⟩⟩⟩)]⟩ 7
        ⟨2023, 1, 1⟩).isOk = false :=
  ⟨rfl, rfl⟩

/-- C7 amended: provided every stored birthday substitutes validly into
this and next year (only Feb 29 around non-leap years fails),
`upcomingBirthdays(7, today)` returns exactly the names of the records
whose `days_to_birthday` value (same-day-is-zero rule included) lies in the
half-open interval `[0, 7)`, in directory insertion order. -/
theorem C7_upcoming_amended (book : AddressBook) (today : Date)
    (h : ∀ e ∈ book.records, substOkB e.2 today = true) :
    book.get_upcoming_birthdays 7 today = .ok (upcomingSpec book today) := by
  unfold AddressBook.get_upcoming_birthdays upcomingSpec
  exact upcomingGo_eq_spec h

/-- C7 witness: today is January 1, 2024; Alice's next birthday (January 7)
is exactly 6 days away and is included, Bob's (January 8) is exactly 7 days
away and is excluded; the result follows insertion order. -/
theorem C7_upcoming_amended_witness :
    AddressBook.get_upcoming_birthdays
      ⟨[("Alice", ⟨⟨"Alice"⟩, [], some ⟨"07.01.1990", ⟨1990, 1, 7⟩⟩⟩),
        ("Bob", ⟨⟨"Bob"⟩, [], some ⟨"08.01.1990", ⟨1990, 1, 8⟩⟩⟩)]⟩ 7
      ⟨2024, 1, 1⟩ = .ok ["Alice"] := by
  rw [C7_upcoming_amended _ _ (by decide)]
  rfl

/-- C8: adding two records whose names share a value leaves exactly one
entry under that key, holding the second record (silent overwrite, no
merge), and every entry's key equals its record's name value. -/
theorem C8_add_record_overwrite (book : AddressBook) (r1 r2 : Record)
    (hwf : book.wf) (_h12 : r1.name.value = r2.name.value) :
    (((book.add_record r1).add_record r2).records.filter
        (fun e => e.1 == r2.name.value)) = [(r2.name.value, r2)] ∧
    ((book.add_record r1).add_record r2).find r2.name.value = some r2 ∧
    ∀ e ∈ ((book.add_record r1).add_record r2).records,
      e.1 = e.2.name.value := by
  obtain ⟨hnd, hinv⟩ := hwf
  unfold AddressBook.add_record
  have hnd1 : ((insertOrReplace book.records r1.name.value r1).map
      Prod.fst).Nodup := ior_keys_nodup hnd
  refine ⟨ior_filter_key hnd1, ?_, ?_⟩
  · unfold AddressBook.find
    rw [ior_find?]
  · intro e he
    rcases ior_mem e he with h' | h'
    · rcases ior_mem e h' with h'' | h''
      · exact hinv e h''
      · rw [h'']
    · rw [h']

/-- C8 witness: two records both named Ann added to the empty directory;
the directory ends with the single entry holding the second record. -/
theorem C8_add_record_overwrite_witness :
    ((((AddressBook.mk []).add_record
          ⟨⟨"Ann"⟩, [⟨"1111111111", 0⟩], none⟩).add_record
          ⟨⟨"Ann"⟩, [⟨"2222222222", 1⟩], none⟩).records.filter
        (fun e => e.1 == (Name.mk "Ann").value)) =
      [((Name.mk "Ann").value, ⟨⟨"Ann"⟩, [⟨"2222222222", 1⟩], none⟩)] ∧
    (((AddressBook.mk []).add_record
          ⟨⟨"Ann"⟩, [⟨"1111111111", 0⟩], none⟩).add_record
          ⟨⟨"Ann"⟩, [⟨"2222222222", 1⟩], none⟩).find (Name.mk "Ann").value =
      some ⟨⟨"Ann"⟩, [⟨"2222222222", 1⟩], none⟩ ∧
    ∀ e ∈ (((AddressBook.mk []).add_record
          ⟨⟨"Ann"⟩, [⟨"1111111111", 0⟩], none⟩).add_record
          ⟨⟨"Ann"⟩, [⟨"2222222222", 1⟩], none⟩).records,
      e.1 = e.2.name.value :=
  C8_add_record_overwrite ⟨[]⟩ ⟨⟨"Ann"⟩, [⟨"1111111111", 0⟩], none⟩
    ⟨⟨"Ann"⟩, [⟨"2222222222", 1⟩], none⟩ ⟨by simp, by simp⟩ rfl

/-- C9: `Name(s)` succeeds iff `s` is non-empty and all-alphabetic,
`Phone(s)` succeeds iff `s` is exactly 10 decimal digits, and every failing
construction raises the validation error (no instance is produced). -/
theorem C9_name_phone_validation :
    ∀ s : String,
      ((mkName s).isOk = true ↔
        (s.data ≠ [] ∧ ∀ ch ∈ s.data, ch.isAlpha = true)) ∧
      ((mkName s).isOk = false →
        mkName s = .error "Name must contain only alphabetic characters.") ∧
      (∀ oid : Nat, ((mkPhone s oid).isOk = true ↔
        (s.data.length = 10 ∧ ∀ ch ∈ s.data, ch.isDigit = true))) ∧
      (∀ oid : Nat, ((mkPhone s oid).isOk = false →
        mkPhone s oid = .error "Phone number must be 10 digits long.")) := by
  intro s
  have halpha : isalphaStr s = true ↔
      (s.data ≠ [] ∧ ∀ ch ∈ s.data, ch.isAlpha = true) := by
    simp [isalphaStr, Bool.and_eq_true, List.all_eq_true,
      List.isEmpty_eq_false]
  have hdigit : isdigitStr s = true ↔
      (s.data ≠ [] ∧ ∀ ch ∈ s.data, ch.isDigit = true) := by
    simp [isdigitStr, Bool.and_eq_true, List.all_eq_true,
      List.isEmpty_eq_false]
  have hlen : s.length = s.data.length := rfl
  refine ⟨?_, ?_, ?_, ?_⟩
  · unfold mkName
    by_cases hs : isalphaStr s = true
    · rw [if_pos hs]
      simp only [Except.isOk, Except.toBool, eq_self_iff_true, true_iff]
      exact halpha.mp hs
    · rw [if_neg hs]
      simp only [Except.isOk, Except.toBool, Bool.false_eq_true, false_iff]
      intro hcon
      exact hs (halpha.mpr hcon)
  · unfold mkName
    by_cases hs : isalphaStr s = true
    · rw [if_pos hs]
      simp [Except.isOk, Except.toBool]
    · rw [if_neg hs]
      intro _
      rfl
  · intro oid
    unfold mkPhone
    by_cases hc : (!isdigitStr s) = true ∨ s.length ≠ 10
    · rw [if_pos hc]
      simp only [Except.isOk, Except.toBool, Bool.false_eq_true, false_iff]
      intro hcon
      rcases hc with hc | hc
      · simp only [Bool.not_eq_true'] at hc
        have hdig : isdigitStr s = true := hdigit.mpr
          ⟨by intro hnil; rw [hnil] at hcon; simp at hcon, hcon.2⟩
        simp [hc] at hdig
      · rw [hlen] at hc
        exact hc hcon.1
    · rw [if_neg hc]
      push_neg at hc
      obtain ⟨hd, hl⟩ := hc
      have hdig : isdigitStr s = true := by simpa using hd
      simp only [Except.isOk, Except.toBool, eq_self_iff_true, true_iff]
      exact ⟨by rw [← hlen]; exact hl, (hdigit.mp hdig).2⟩
  · intro oid
    unfold mkPhone
    by_cases hc : (!isdigitStr s) = true ∨ s.length ≠ 10
    · rw [if_pos hc]
      intro _
      rfl
    · rw [if_neg hc]
      simp [Except.isOk, Except.toBool]

/-- C9 witness: the failing cases produce the validation error and the
passing cases an instance, at concrete inputs. -/
theorem C9_name_phone_validation_witness :
    mkName "John3" = .error "Name must contain only alphabetic characters." ∧
    mkPhone "12345" 0 = .error "Phone number must be 10 digits long." :=
  ⟨(C9_name_phone_validation "John3").2.1 (by decide),
   (C9_name_phone_validation "12345").2.2.2 0 (by decide)⟩

/-- C10: with a record whose birthday is February 29 on file and a non-leap
current year, `get_upcoming_birthdays` raises `ValueError` when
substituting that month/day into the current year, and the `birthdays`
command prints that error's message text instead of any list of names. -/
theorem C10_feb29_birthdays_message (book : AddressBook) (today : Date)
    (e0 : String × Record) (hmem : e0 ∈ book.records) (b : Birthday)
    (hb : e0.2.birthday = some b) (hm : b.date.month = 2)
    (hd : b.date.day = 29) (hleap : isLeap today.year = false)
    (hy1 : 1 ≤ today.year) (hy2 : today.year ≤ 9999) :
    ∃ msg, book.get_upcoming_birthdays 7 today = .error msg ∧
      birthdays book today = msg := by
  obtain ⟨msg, hmsg⟩ :=
    upcomingGo_error_of_feb29 7 hmem hb hm hd hleap hy1 hy2
  have hup : book.get_upcoming_birthdays 7 today = .error msg := hmsg
  refine ⟨msg, hup, ?_⟩
  unfold birthdays
  rw [hup]

/-- C10 witness: Ann (normal birthday, processed first and dropped) and a
Feb-29 contact, with today March 1, 2023 (non-leap): the query errors and
the `birthdays` command prints the error message. -/
theorem C10_feb29_birthdays_message_witness :
    ∃ msg,
      AddressBook.get_upcoming_birthdays
        ⟨[("Ann", ⟨⟨"Ann"⟩, [], some ⟨"15.06.1995", ⟨1995, 6, 15⟩⟩⟩),
          ("Kim", ⟨⟨"Kim"⟩, [], some ⟨"29.02.1992", ⟨1992, 2, 29⟩⟩⟩)]⟩ 7
        ⟨2023, 3, 1⟩ = .error msg ∧
      birthdays
        ⟨[("Ann", ⟨⟨"Ann"⟩, [], some ⟨"15.06.1995", ⟨1995, 6, 15⟩⟩⟩),
          ("Kim", ⟨⟨"Kim"⟩, [], some ⟨"29.02.1992", ⟨1992, 2, 29⟩⟩⟩)]⟩
        ⟨2023, 3, 1⟩ = msg :=
  C10_feb29_birthdays_message
    ⟨[("Ann", ⟨⟨"Ann"⟩, [], some ⟨"15.06.1995", ⟨1995, 6, 15⟩⟩⟩),
      ("Kim", ⟨⟨"Kim"⟩, [], some ⟨"29.02.1992", ⟨1992, 2, 29⟩⟩⟩)]⟩
    ⟨2023, 3, 1⟩
    ("Kim", ⟨⟨"Kim"⟩, [], some ⟨"29.02.1992", ⟨1992, 2, 29⟩⟩⟩)
    (by decide) ⟨"29.02.1992", ⟨1992, 2, 29⟩⟩ rfl rfl rfl (by decide)
    (by decide) (by decide)

end AssistantBot
